import Mathlib

set_option linter.unusedVariables false

/-!
Shallow embedding of the agent task-queue and orchestration core of the
`data-alchemy-finance` repository (src/server/ai-agents/BaseAgent.ts,
AgentManager.ts), together with proofs of the specification's claims about it.

Modelling conventions:
- JavaScript `Date` timestamps are a logical clock threaded through the state:
  every `new Date()` allocation returns the current clock value and advances it
  by one, so allocated timestamps are strictly increasing in program order.
  `Date.now()` in the recurring health-check tick is passed in as a parameter.
- `async`/`await` chains are sequential function composition: an async
  function's promise resolves exactly when the embedded function returns, and a
  `setTimeout` continuation (the self-rescheduling drain callback) is a later
  application of `drainStep`.
- JavaScript numbers are exact rationals (`ℚ`); counters are `Nat`.
- Opaque `any` payloads are the inductive `Value`.
- Thrown exceptions are `Except String` / `Option String` error results.
- The drain loop mutates the dequeued task object in place through a shared
  reference; the embedding records the final task record in the `processed`
  history (in completion order) so its fields remain observable.
- The `events` field is observation-only instrumentation recording the order of
  enqueue, handler invocation and submit-return, used to state ordering claims;
  no definition branches on it.
-/

namespace DataAlchemy

/-- Opaque JSON-ish payload carried by tasks and workflow steps. `stepResult a t d`
models the mock object `\x7bprocessed: true, agent: a, timestamp: t, data: d\x7d`
built by `SupervisorAgent.executeWorkflowStep` (AgentManager.ts 287-292). -/
inductive Value where
  | str : String → Value
  | num : Nat → Value
  | stepResult : String → Nat → Value → Value
deriving DecidableEq, Repr

/-- `AgentTask.status` (BaseAgent.ts 6). -/
inductive TaskStatus where
  | pending
  | processing
  | completed
  | failed
deriving DecidableEq, Repr

/-- `BaseAgent.status` (BaseAgent.ts 25). -/
inductive AgentStatus where
  | idle
  | active
  | processing
  | training
  | error
deriving DecidableEq, Repr

/-- `AgentTask` (BaseAgent.ts 1-12). Timestamps are logical-clock values. -/
structure AgentTask where
  id : String
  type : String
  data : Value
  priority : Nat
  status : TaskStatus
  createdAt : Nat
  startedAt : Option Nat
  completedAt : Option Nat
  result : Option Value
  error : Option String
deriving DecidableEq, Repr

/-- `AgentMetrics` (BaseAgent.ts 14-21). `speed` holds the numeric ops/sec value
that the source formats into the label string. -/
structure AgentMetrics where
  tasksProcessed : Nat
  tasksSuccessful : Nat
  tasksFailed : Nat
  averageProcessingTime : ℚ
  accuracy : ℚ
  speed : ℚ
deriving DecidableEq, Repr

/-- One entry of the bounded log buffer (BaseAgent.ts 128-133); the structured
`data` payload is dropped as observation-irrelevant. -/
structure LogEntry where
  timestamp : Nat
  level : String
  message : String
deriving DecidableEq, Repr

/-- Instrumentation events used to state ordering claims about `submitTask`. -/
inductive AgentEvent where
  | taskEnqueued : String → AgentEvent
  | handlerInvoked : String → AgentEvent
  | submitReturned : String → AgentEvent
deriving DecidableEq, Repr

/-- The mutable fields of a `BaseAgent` instance (BaseAgent.ts 24-30), plus the
logical clock, the processed-task history and the instrumentation trace. -/
structure AgentState where
  name : String
  status : AgentStatus
  currentTask : String
  progress : Nat
  taskQueue : List AgentTask
  metrics : AgentMetrics
  logs : List LogEntry
  clock : Nat
  processed : List AgentTask
  events : List AgentEvent
deriving DecidableEq, Repr

/-- The pluggable `processTask` strategy of a concrete agent: the awaited
outcome of `this.processTask(task)` — a result value or a thrown message. -/
abbrev Handler := AgentTask → Except String Value

/-- The `default` branch shared by every concrete agent's `processTask` switch
(LabelerAgent.ts 423-424 for the Parser agent, CleanerAgent.ts 40-41, …): a task
whose `type` has no case throws `Unknown task type`. -/
def unknownTypeHandler : Handler := fun task =>
  .error ("Unknown task type: " ++ task.type)

/-- Appending one entry to the bounded log buffer: push, then keep only the last
1000 entries (BaseAgent.ts 134-139, `this.logs = this.logs.slice(-1000)`). -/
def appendLog (logs : List LogEntry) (e : LogEntry) : List LogEntry :=
  let l := logs ++ [e]
  if 1000 < l.length then l.drop (l.length - 1000) else l

/-- `BaseAgent.log` (BaseAgent.ts 127-142); the console side effect is dropped. -/
def agentLog (s : AgentState) (level message : String) : AgentState :=
  { s with logs := appendLog s.logs ⟨s.clock, level, message⟩, clock := s.clock + 1 }

/-- `BaseAgent.updateMetrics` (BaseAgent.ts 111-125). -/
def updateMetrics (m : AgentMetrics) (task : AgentTask) : AgentMetrics :=
  let m :=
    match task.startedAt, task.completedAt with
    | some st, some ct =>
        let processingTime : ℚ := (ct : ℚ) - (st : ℚ)
        { m with averageProcessingTime :=
            (m.averageProcessingTime * ((m.tasksProcessed : ℚ) - 1) + processingTime) /
              (m.tasksProcessed : ℚ) }
    | _, _ => m
  let m :=
    { m with accuracy :=
        if 0 < m.tasksProcessed then
          ((m.tasksSuccessful : ℚ) / (m.tasksProcessed : ℚ)) * 100
        else 0 }
  { m with speed := if 0 < m.averageProcessingTime then 1000 / m.averageProcessingTime else 0 }

/-- `BaseAgent.processNextTask` (BaseAgent.ts 55-109): one drain iteration. The
trailing `setTimeout` re-scheduling is modelled by a later `drainStep`. -/
def processNextTask (handler : Handler) (s : AgentState) : AgentState :=
  match s.taskQueue with
  | [] => { s with status := .idle, currentTask := "Ready", progress := 0 }
  | task :: rest =>
    let s1 := { s with taskQueue := rest, status := .processing,
                       currentTask := "Processing " ++ task.type, progress := 25 }
    let task1 := { task with status := .processing, startedAt := some s1.clock }
    let s2 := { s1 with clock := s1.clock + 1 }
    let s3 := agentLog s2 "info" ("Starting task " ++ task1.id)
    let s4 := { s3 with events := s3.events ++ [AgentEvent.handlerInvoked task1.id] }
    match handler task1 with
    | .ok result =>
      let task2 := { task1 with status := .completed, completedAt := some s4.clock,
                                result := some result }
      let s5 := { s4 with clock := s4.clock + 1 }
      let m := { s5.metrics with tasksProcessed := s5.metrics.tasksProcessed + 1,
                                 tasksSuccessful := s5.metrics.tasksSuccessful + 1 }
      let s6 := { s5 with metrics := updateMetrics m task2 }
      let s7 := agentLog s6 "info" ("Task " ++ task2.id ++ " completed successfully")
      { s7 with progress := 100, processed := s7.processed ++ [task2] }
    | .error e =>
      let task2 := { task1 with status := .failed, completedAt := some s4.clock,
                                error := some e }
      let s5 := { s4 with clock := s4.clock + 1 }
      let m := { s5.metrics with tasksProcessed := s5.metrics.tasksProcessed + 1,
                                 tasksFailed := s5.metrics.tasksFailed + 1 }
      let s6 := { s5 with metrics := updateMetrics m task2 }
      let s7 := agentLog s6 "error" ("Task " ++ task2.id ++ " failed")
      { s7 with status := .error, progress := 0, processed := s7.processed ++ [task2] }

/-- `BaseAgent.addTask` (BaseAgent.ts 46-53): append to the FIFO queue, log, and
if the agent is idle enter the drain loop immediately (awaited). -/
def addTask (handler : Handler) (s : AgentState) (task : AgentTask) : AgentState :=
  let s1 := { s with taskQueue := s.taskQueue ++ [task],
                     events := s.events ++ [AgentEvent.taskEnqueued task.id] }
  let s2 := agentLog s1 "info" ("Task " ++ task.id ++ " added to queue")
  if s2.status = .idle then processNextTask handler s2 else s2

/-- One scheduled drain callback. After a failure the recovery timer first resets
the status to idle (BaseAgent.ts 104-107); after a success the timer re-enters
`processNextTask` directly (BaseAgent.ts 88). -/
def drainStep (handler : Handler) (s : AgentState) : AgentState :=
  processNextTask handler (if s.status = .error then { s with status := .idle } else s)

/-- `n` successive scheduled drain callbacks. -/
def drain (handler : Handler) : Nat → AgentState → AgentState
  | 0, s => s
  | n + 1, s => drain handler n (drainStep handler s)

/-- A freshly constructed agent (BaseAgent.ts 32-42). -/
def mkAgent (name : String) : AgentState :=
  { name := name, status := .idle, currentTask := "Ready", progress := 0,
    taskQueue := [], metrics := ⟨0, 0, 0, 0, 0, 0⟩, logs := [], clock := 0,
    processed := [], events := [] }

/-! ### Association-list model of JavaScript `Map` / plain objects

`mapGet` is `Map.get` / property read; `objSet` is `Map.set` / property
assignment: overwrite in place if the key exists, else append (JavaScript
preserves insertion order). Mutating a value fetched by reference and then
observing the map is modelled by `objSet` with the modified value. -/

def mapGet {α : Type} (k : String) : List (String × α) → Option α
  | [] => none
  | p :: rest => if p.1 = k then some p.2 else mapGet k rest

def objSet {α : Type} : List (String × α) → String → α → List (String × α)
  | [], k, v => [(k, v)]
  | p :: rest, k, v => if p.1 = k then (k, v) :: rest else p :: objSet rest k v

/-- `AgentManager`'s state (AgentManager.ts 6-8): the agent registry and the
monotonic task counter. -/
structure ManagerState where
  agents : List (String × AgentState)
  taskCounter : Nat
deriving DecidableEq, Repr

/-- A freshly constructed `AgentManager` (AgentManager.ts 10-23): parser,
cleaner and labeler agents are registered. -/
def mkManager : ManagerState :=
  { agents := [("parser", mkAgent "Parser Agent"), ("cleaner", mkAgent "Cleaner Agent"),
               ("labeler", mkAgent "Labeler Agent")],
    taskCounter := 0 }

/-- `AgentManager.submitTask` (AgentManager.ts 25-43). `handlers` supplies each
registered agent's pluggable `processTask` strategy. The call returns when the
awaited `agent.addTask(task)` resolves. -/
def submitTask (handlers : String → Handler) (mgr : ManagerState)
    (agentName taskType : String) (data : Value) : Except String (String × ManagerState) :=
  match mapGet agentName mgr.agents with
  | none => .error ("Agent " ++ agentName ++ " not found")
  | some agent =>
    let counter := mgr.taskCounter + 1
    let taskId := "task_" ++ toString counter
    let task : AgentTask :=
      { id := taskId, type := taskType, data := data, priority := 1, status := .pending,
        createdAt := agent.clock, startedAt := none, completedAt := none,
        result := none, error := none }
    let agent1 := { agent with clock := agent.clock + 1 }
    let agent2 := addTask (handlers agentName) agent1 task
    .ok (taskId, { agents := objSet mgr.agents agentName agent2, taskCounter := counter })

/-- The ordered instrumentation trace of one `submitTask` call: the events the
named agent emitted during the call, followed by the resolution of
`submitTask`'s own promise. -/
def submitTrace (handlers : String → Handler) (mgr : ManagerState)
    (agentName taskType : String) (data : Value) : List AgentEvent :=
  match submitTask handlers mgr agentName taskType data with
  | .error _ => []
  | .ok (taskId, mgr') =>
    match mapGet agentName mgr.agents, mapGet agentName mgr'.agents with
    | some a0, some a1 =>
        a1.events.drop a0.events.length ++ [AgentEvent.submitReturned taskId]
    | _, _ => []

/-- The fire-and-forget reading of the spec: within one `submitTask` call's
trace, the call returns before the submitted task's handler is invoked
(vacuously satisfied when the handler is not invoked during the call, in which
case its index defaults to the trace length). -/
def returnsBeforeHandler (tr : List AgentEvent) (taskId : String) : Prop :=
  tr.indexOf (AgentEvent.submitReturned taskId) < tr.indexOf (AgentEvent.handlerInvoked taskId)

/-! ### Supervisor: health table, workflows, orchestration -/

/-- `AgentHealth.status` (AgentManager.ts 99). -/
inductive HealthStatus where
  | healthy
  | degraded
  | unhealthy
deriving DecidableEq, Repr

/-- `AgentHealth` (AgentManager.ts 97-104). -/
structure AgentHealth where
  agentName : String
  status : HealthStatus
  lastSeen : Nat
  taskCount : Nat
  errorRate : ℚ
  avgResponseTime : ℚ
deriving DecidableEq, Repr

/-- `SupervisorSettings` (AgentManager.ts 87-95). -/
structure SupervisorSettings where
  maxConcurrentTasks : Nat
  taskTimeoutMinutes : Nat
  autoRetryFailedTasks : Bool
  maxRetryAttempts : Nat
  loadBalancingEnabled : Bool
  priorityThreshold : Nat
  healthCheckInterval : Nat
deriving DecidableEq, Repr

/-- The supervisor's default settings (AgentManager.ts 107-115). -/
def defaultSettings : SupervisorSettings :=
  { maxConcurrentTasks := 10, taskTimeoutMinutes := 30, autoRetryFailedTasks := true,
    maxRetryAttempts := 3, loadBalancingEnabled := true, priorityThreshold := 5,
    healthCheckInterval := 60000 }

/-- A registered workflow (AgentManager.ts 145-160). -/
structure Workflow where
  name : String
  steps : List String
  parallel : Bool
  retryOnFailure : Bool
deriving DecidableEq, Repr

/-- One per-step execution record pushed onto an orchestration
(AgentManager.ts 265-274). -/
structure StepExecution where
  agent : String
  startTime : Nat
  status : String
  inputData : Value
  result : Option Value
  error : Option String
  endTime : Option Nat
deriving DecidableEq, Repr

/-- A workflow execution record (AgentManager.ts 195-203). -/
structure Orchestration where
  workflowId : String
  name : String
  startTime : Nat
  status : String
  steps : List StepExecution
  results : List (String × Value)
  errors : List (String × String)
  endTime : Option Nat
deriving DecidableEq, Repr

/-- The supervisor state touched by orchestration and health checking
(AgentManager.ts 107-119). The supervisor's inherited `BaseAgent` fields (its
own queue/logs) are independent of these tables and omitted. -/
structure SupState where
  settings : SupervisorSettings
  agentHealth : List (String × AgentHealth)
  taskRegistry : List (String × Orchestration)
  workflows : List (String × Workflow)
  clock : Nat
deriving DecidableEq, Repr

/-- The agent names tracked by health monitoring (AgentManager.ts 129). -/
def healthNames : List String := ["parser", "cleaner", "labeler", "reviewer", "trainer"]

/-- The initial health record of one monitored agent (AgentManager.ts 131-138). -/
def mkHealth (name : String) (t : Nat) : AgentHealth :=
  { agentName := name, status := .healthy, lastSeen := t, taskCount := 0,
    errorRate := 0, avgResponseTime := 1000 }

/-- The two workflows registered at construction (AgentManager.ts 145-160). -/
def initialWorkflows : List (String × Workflow) :=
  [("data_processing",
    { name := "Data Processing Pipeline", steps := ["parser", "cleaner", "labeler", "reviewer"],
      parallel := false, retryOnFailure := true }),
   ("quality_assurance",
    { name := "Quality Assurance Pipeline", steps := ["reviewer", "trainer"],
      parallel := true, retryOnFailure := false })]

/-- A freshly constructed supervisor (AgentManager.ts 121-160) whose
construction-time `new Date()` calls start at clock `t0`. -/
def mkSupervisor (t0 : Nat) : SupState :=
  { settings := defaultSettings,
    agentHealth := healthNames.enum.map fun p => (p.2, mkHealth p.2 (t0 + p.1)),
    taskRegistry := [], workflows := initialWorkflows, clock := t0 + healthNames.length }

/-- `SupervisorAgent.executeWorkflowStep` (AgentManager.ts 260-319). Returns the
updated supervisor state, the orchestration with the step record pushed, and the
step's outcome (`.error` models the rethrown exception). The step fails exactly
when the agent's health is missing or `unhealthy` (the pre-flight check at
278-281); otherwise the mocked unit of work succeeds. On failure the catch block
re-fetches the health record and, when present, blends the error into
`errorRate` and increments `taskCount` (311-315); `errorRate` is not touched on
the success path (297-301). -/
def executeWorkflowStep (st : SupState) (agentName : String) (inputData : Value)
    (orch : Orchestration) : SupState × Orchestration × Except String Value :=
  let startTime := st.clock
  let st := { st with clock := st.clock + 1 }
  let msg := "Agent " ++ agentName ++ " is unhealthy"
  match mapGet agentName st.agentHealth with
  | none =>
    let stepExec : StepExecution :=
      { agent := agentName, startTime := startTime, status := "failed",
        inputData := inputData, result := none, error := some msg,
        endTime := some st.clock }
    let st := { st with clock := st.clock + 1 }
    (st, { orch with steps := orch.steps ++ [stepExec] }, .error msg)
  | some health =>
    if health.status = .unhealthy then
      let stepExec : StepExecution :=
        { agent := agentName, startTime := startTime, status := "failed",
          inputData := inputData, result := none, error := some msg,
          endTime := some st.clock }
      let st := { st with clock := st.clock + 1 }
      let health' :=
        { health with
          errorRate := (health.errorRate * (health.taskCount : ℚ) + 1) / ((health.taskCount : ℚ) + 1),
          taskCount := health.taskCount + 1 }
      let st := { st with agentHealth := objSet st.agentHealth agentName health' }
      (st, { orch with steps := orch.steps ++ [stepExec] }, .error msg)
    else
      let st := { st with clock := st.clock + 2000 }
      let resultTs := st.clock
      let st := { st with clock := st.clock + 1 }
      let result := Value.stepResult agentName resultTs inputData
      let endTime := st.clock
      let st := { st with clock := st.clock + 1 }
      let lastSeen := st.clock
      let st := { st with clock := st.clock + 1 }
      let health' :=
        { health with
          taskCount := health.taskCount + 1, lastSeen := lastSeen,
          avgResponseTime := (health.avgResponseTime + ((endTime : ℚ) - (startTime : ℚ))) / 2 }
      let stepExec : StepExecution :=
        { agent := agentName, startTime := startTime, status := "completed",
          inputData := inputData, result := some result, error := none,
          endTime := some endTime }
      let st := { st with agentHealth := objSet st.agentHealth agentName health' }
      (st, { orch with steps := orch.steps ++ [stepExec] }, .ok result)

/-- The sequential branch of `orchestrateWorkflow` (AgentManager.ts 226-234):
execute steps one at a time, record each result under the step's name, and
thread each result into the next step as `currentData`; a thrown error aborts
the remaining steps immediately. -/
def runSequentialSteps (st : SupState) (steps : List String) (currentData : Value)
    (orch : Orchestration) : SupState × Orchestration × Except String Value :=
  match steps with
  | [] => (st, orch, .ok currentData)
  | step :: rest =>
    match executeWorkflowStep st step currentData orch with
    | (st', orch', .error e) => (st', orch', .error e)
    | (st', orch', .ok r) =>
        runSequentialSteps st' rest r { orch' with results := objSet orch'.results step r }

/-- The parallel branch of `orchestrateWorkflow` (AgentManager.ts 208-225):
every step is dispatched with the original `inputData`, `Promise.allSettled`
waits for all of them regardless of individual outcomes, and the recording
`forEach` stores each fulfilled value in `results[stepName]` and pushes each
rejection onto `errors`, in step-list order. The single-threaded event loop
serializes the health-table updates. -/
def runParallelSteps (st : SupState) (steps : List String) (inputData : Value)
    (orch : Orchestration) : SupState × Orchestration :=
  match steps with
  | [] => (st, orch)
  | step :: rest =>
    match executeWorkflowStep st step inputData orch with
    | (st', orch', .ok v) =>
        runParallelSteps st' rest inputData { orch' with results := objSet orch'.results step v }
    | (st', orch', .error e) =>
        runParallelSteps st' rest inputData { orch' with errors := orch'.errors ++ [(step, e)] }

/-- `SupervisorAgent.orchestrateWorkflow` (AgentManager.ts 181-258). The third
component is the rethrown error, if any; the second is the final execution
record. JavaScript registers the record object in `taskRegistry` up front and
mutates it in place; the embedding stores the final value of the record under
the same id. The supervisor's own log calls touch only its log buffer and are
omitted. -/
def orchestrateWorkflow (st : SupState) (workflowName : String) (inputData : Value) :
    SupState × Option Orchestration × Option String :=
  match mapGet workflowName st.workflows with
  | none => (st, none, some ("Workflow " ++ workflowName ++ " not found"))
  | some workflow =>
    let wid := "workflow_" ++ toString st.clock
    let st := { st with clock := st.clock + 1 }
    let startTime := st.clock
    let st := { st with clock := st.clock + 1 }
    let orch : Orchestration :=
      { workflowId := wid, name := workflowName, startTime := startTime,
        status := "running", steps := [], results := [], errors := [], endTime := none }
    if workflow.parallel then
      let (st1, orch1) := runParallelSteps st workflow.steps inputData orch
      let orch2 := { orch1 with
        status := if 0 < orch1.errors.length then "completed_with_errors" else "completed",
        endTime := some st1.clock }
      let st2 := { st1 with clock := st1.clock + 1,
                            taskRegistry := objSet st1.taskRegistry wid orch2 }
      (st2, some orch2, none)
    else
      match runSequentialSteps st workflow.steps inputData orch with
      | (st1, orch1, .ok _) =>
        let orch2 := { orch1 with
          status := if 0 < orch1.errors.length then "completed_with_errors" else "completed",
          endTime := some st1.clock }
        let st2 := { st1 with clock := st1.clock + 1,
                              taskRegistry := objSet st1.taskRegistry wid orch2 }
        (st2, some orch2, none)
      | (st1, orch1, .error e) =>
        let orch2 := { orch1 with status := "failed", endTime := some st1.clock,
                                  errors := orch1.errors ++ [("orchestration", e)] }
        let st2 := { st1 with clock := st1.clock + 1,
                              taskRegistry := objSet st1.taskRegistry wid orch2 }
        (st2, some orch2, some e)

/-- The per-agent body of `performHealthChecks` (AgentManager.ts 584-595):
priority unhealthy > degraded > healthy, writing only the status field. -/
def checkHealth (now : Nat) (interval : Nat) (h : AgentHealth) : AgentHealth :=
  let timeSinceLastSeen : ℤ := (now : ℤ) - (h.lastSeen : ℤ)
  let timeoutMs : ℤ := (interval : ℤ) * 3
  if timeoutMs < timeSinceLastSeen then { h with status := .unhealthy }
  else if (1 : ℚ) / 5 < h.errorRate then { h with status := .degraded }
  else { h with status := .healthy }

/-- `SupervisorAgent.performHealthChecks` (AgentManager.ts 583-596): one
health-check tick at time `now` re-evaluates every tracked agent. -/
def performHealthChecks (st : SupState) (now : Nat) : SupState :=
  { st with agentHealth :=
      st.agentHealth.map fun p => (p.1, checkHealth now st.settings.healthCheckInterval p.2) }

/-! ### Association-list helper lemmas -/

theorem mapGet_objSet_self {α : Type} (l : List (String × α)) (k : String) (v : α) :
    mapGet k (objSet l k v) = some v := by
  induction l with
  | nil => simp [objSet, mapGet]
  | cons p rest ih =>
    by_cases hp : p.1 = k <;> simp [objSet, mapGet, hp, ih]

theorem mapGet_objSet_ne {α : Type} (l : List (String × α)) {k k' : String} (v : α)
    (hk : k' ≠ k) : mapGet k' (objSet l k v) = mapGet k' l := by
  induction l with
  | nil => simp [objSet, mapGet, Ne.symm hk]
  | cons p rest ih =>
    by_cases hp : p.1 = k
    · simp [objSet, mapGet, hp, Ne.symm hk]
    · by_cases hp' : p.1 = k' <;> simp [objSet, mapGet, hp, hp', hk, ih]

theorem mapGet_map {α β : Type} (f : α → β) (k : String) (l : List (String × α)) :
    mapGet k (l.map fun p => (p.1, f p.2)) = (mapGet k l).map f := by
  induction l with
  | nil => simp [mapGet]
  | cons p rest ih =>
    by_cases hp : p.1 = k <;> simp [mapGet, hp, ih]

theorem mapGet_some_mem {α : Type} {k : String} {l : List (String × α)} {v : α}
    (h : mapGet k l = some v) : ∃ k', (k', v) ∈ l := by
  induction l with
  | nil => simp [mapGet] at h
  | cons p rest ih =>
    by_cases hp : p.1 = k
    · simp [mapGet, hp] at h
      exact ⟨p.1, by simp [← h]⟩
    · simp [mapGet, hp] at h
      obtain ⟨k', hk⟩ := ih h
      exact ⟨k', by simp [hk]⟩

theorem objSet_keys_of_not_mem {α : Type} (l : List (String × α)) {k : String} (v : α)
    (hk : k ∉ l.map Prod.fst) : (objSet l k v).map Prod.fst = l.map Prod.fst ++ [k] := by
  induction l with
  | nil => simp [objSet]
  | cons p rest ih =>
    simp only [List.map_cons, List.mem_cons] at hk
    push_neg at hk
    simp [objSet, Ne.symm hk.1, ih hk.2]

/-! ### C9: the health-check tick -/

/-- C9: On every health-check tick, each tracked agent's status is recomputed by
the exact priority unhealthy (stale for more than 3 × healthCheckInterval) >
degraded (errorRate > 0.2) > healthy, and the tick changes nothing except the
status field: every other health field, and every other part of the supervisor
state, is left untouched. -/
theorem health_tick_status_priority (st : SupState) (now interval : Nat) (h : AgentHealth) :
    ((checkHealth now interval h).status =
      if ((interval : ℤ) * 3) < (now : ℤ) - (h.lastSeen : ℤ) then HealthStatus.unhealthy
      else if (2 : ℚ) / 10 < h.errorRate then HealthStatus.degraded
      else HealthStatus.healthy) ∧
    (checkHealth now interval h).agentName = h.agentName ∧
    (checkHealth now interval h).lastSeen = h.lastSeen ∧
    (checkHealth now interval h).taskCount = h.taskCount ∧
    (checkHealth now interval h).errorRate = h.errorRate ∧
    (checkHealth now interval h).avgResponseTime = h.avgResponseTime ∧
    (performHealthChecks st now).agentHealth =
      (st.agentHealth.map fun p => (p.1, checkHealth now st.settings.healthCheckInterval p.2)) ∧
    (performHealthChecks st now).settings = st.settings ∧
    (performHealthChecks st now).taskRegistry = st.taskRegistry ∧
    (performHealthChecks st now).workflows = st.workflows ∧
    (performHealthChecks st now).clock = st.clock := by
  have h25 : (2 : ℚ) / 10 = 1 / 5 := by norm_num
  refine ⟨?_, ?_, ?_, ?_, ?_, ?_, rfl, rfl, rfl, rfl, rfl⟩ <;>
    simp only [checkHealth, h25] <;> split_ifs <;> rfl

/-! ### C8: the bounded log ring buffer -/

theorem appendLog_drop (es : List LogEntry) (e : LogEntry) :
    appendLog (es.drop (es.length - 1000)) e = (es ++ [e]).drop (es.length + 1 - 1000) := by
  simp only [appendLog]
  rcases le_or_lt es.length 999 with hle | hlt
  · have h1 : es.length - 1000 = 0 := by omega
    have h2 : es.length + 1 - 1000 = 0 := by omega
    rw [h1, List.drop_zero, h2, List.drop_zero, if_neg ?hneg]
    case hneg =>
      simp only [List.length_append, List.length_cons, List.length_nil]
      omega
  · have hlen : (es.drop (es.length - 1000) ++ [e]).length = 1001 := by
      simp only [List.length_append, List.length_cons, List.length_nil, List.length_drop]
      omega
    rw [if_pos ?hpos, hlen]
    case hpos => rw [hlen]; norm_num
    have h1 : (1001 : Nat) - 1000 = 1 := by norm_num
    have hle1 : 1 ≤ (es.drop (es.length - 1000)).length := by rw [List.length_drop]; omega
    have hle2 : es.length + 1 - 1000 ≤ es.length := by omega
    rw [h1, List.drop_append_of_le_length hle1, List.drop_drop,
      List.drop_append_of_le_length hle2]
    have harith : es.length - 1000 + 1 = es.length + 1 - 1000 := by omega
    rw [harith]

theorem foldl_appendLog (es2 : List LogEntry) : ∀ es1 : List LogEntry,
    es2.foldl appendLog (es1.drop (es1.length - 1000)) =
      (es1 ++ es2).drop ((es1 ++ es2).length - 1000) := by
  induction es2 with
  | nil => intro es1; simp
  | cons e rest ih =>
    intro es1
    have hlen : (es1 ++ [e]).length - 1000 = es1.length + 1 - 1000 := by simp
    rw [List.foldl_cons, appendLog_drop, ← hlen]
    have h2 := ih (es1 ++ [e])
    simpa [List.append_assoc] using h2

/-- C8: `BaseAgent.log` appends through the bounded buffer `appendLog`, and
after any sequence of `N > 1000` appends starting from the empty buffer the
buffer holds exactly 1000 entries, whose oldest survivor is the
`(N - 1000 + 1)`-th appended entry (0-indexed position `N - 1000`): older
entries are silently dropped oldest-first. -/
theorem log_ring_buffer_bound (s : AgentState) (level msg : String)
    (es : List LogEntry) (hN : 1000 < es.length) :
    (agentLog s level msg).logs = appendLog s.logs ⟨s.clock, level, msg⟩ ∧
    (es.foldl appendLog []).length = 1000 ∧
    (es.foldl appendLog []).head? = es[es.length - 1000]? := by
  have hfold : es.foldl appendLog [] = es.drop (es.length - 1000) := by
    have := foldl_appendLog es []
    simpa using this
  refine ⟨rfl, ?_, ?_⟩
  · rw [hfold, List.length_drop]
    omega
  · rw [hfold, List.head?_drop]

/-- Witness for C8 at a concrete input: 1001 appended entries. -/
theorem log_ring_buffer_bound_witness :
    1000 < ((List.range 1001).map fun n => (⟨n, "info", "m"⟩ : LogEntry)).length ∧
    ((agentLog (mkAgent "a") "info" "m").logs =
        appendLog (mkAgent "a").logs ⟨(mkAgent "a").clock, "info", "m"⟩ ∧
      (((List.range 1001).map fun n => (⟨n, "info", "m"⟩ : LogEntry)).foldl appendLog []).length = 1000 ∧
      (((List.range 1001).map fun n => (⟨n, "info", "m"⟩ : LogEntry)).foldl appendLog []).head? =
        ((List.range 1001).map fun n => (⟨n, "info", "m"⟩ : LogEntry))[(((List.range 1001).map fun n => (⟨n, "info", "m"⟩ : LogEntry)).length - 1000)]?) := by
  refine ⟨by simp, ?_⟩
  exact log_ring_buffer_bound (mkAgent "a") "info" "m" _ (by simp)

/-! ### C2 and C10: the supervisor's errorRate -/

/-- Modelled from the spec: the "exponentially-smoothed running average
recomputed on every task completion/failure" reading of `errorRate` applied to
a successful step — blending in the success observation 0,
`errorRate ← (errorRate·taskCount + 0) / (taskCount + 1)`. The source has no
such success-path recomputation; this definition exists only to compare the
spec's words with the source behaviour. -/
def specErrorRateAfterSuccess (e : ℚ) (t : Nat) : ℚ := (e * (t : ℚ)) / ((t : ℚ) + 1)

/-- A concrete health record: one prior task, errorRate one half. -/
def c2Health : AgentHealth :=
  { agentName := "cleaner", status := .healthy, lastSeen := 0, taskCount := 1,
    errorRate := 1/2, avgResponseTime := 1000 }

/-- A concrete supervisor state holding only `c2Health`. -/
def c2State : SupState :=
  { settings := defaultSettings, agentHealth := [("cleaner", c2Health)],
    taskRegistry := [], workflows := initialWorkflows, clock := 0 }

/-- A fresh, empty orchestration record. -/
def emptyOrch : Orchestration :=
  { workflowId := "w", name := "n", startTime := 0, status := "running",
    steps := [], results := [], errors := [], endTime := none }

/-- C2 counterexample: a successful workflow step leaves `errorRate` untouched
(one half stays one half), whereas the claimed recomputation on every
completion would blend it down to one quarter. `errorRate` is therefore NOT
recomputed on every workflow-step completion — it is only touched on failure. -/
theorem errorRate_untouched_on_success_cex :
    (mapGet "cleaner" (executeWorkflowStep c2State "cleaner" (Value.str "d")
        emptyOrch).1.agentHealth).map AgentHealth.errorRate = some (1/2) ∧
    specErrorRateAfterSuccess (1/2) 1 = 1/4 ∧
    ¬ (mapGet "cleaner" (executeWorkflowStep c2State "cleaner" (Value.str "d")
        emptyOrch).1.agentHealth).map AgentHealth.errorRate =
      some (specErrorRateAfterSuccess (1/2) 1) := by
  have h1 : (mapGet "cleaner" (executeWorkflowStep c2State "cleaner" (Value.str "d")
      emptyOrch).1.agentHealth).map AgentHealth.errorRate = some (1/2) := rfl
  have h2 : specErrorRateAfterSuccess (1/2) 1 = 1/4 := by
    norm_num [specErrorRateAfterSuccess]
  refine ⟨h1, h2, ?_⟩
  rw [h1, h2]
  intro hc
  have hq : (1 : ℚ)/2 = 1/4 := by injection hc
  norm_num at hq

/-- How one workflow step updates the dispatched agent's health record
(AgentManager.ts 296-315), shared by the C2 and C10 developments. -/
theorem stepHealth_update (st : SupState) (agentName : String) (input : Value)
    (orch : Orchestration) (h : AgentHealth)
    (hh : mapGet agentName st.agentHealth = some h) :
    ∃ h', mapGet agentName (executeWorkflowStep st agentName input orch).1.agentHealth = some h' ∧
      h'.taskCount = h.taskCount + 1 ∧
      h'.errorRate = (if h.status = HealthStatus.unhealthy
          then (h.errorRate * (h.taskCount : ℚ) + 1) / ((h.taskCount : ℚ) + 1)
          else h.errorRate) ∧
      (h.status ≠ HealthStatus.unhealthy →
        h'.errorRate = h.errorRate ∧
        h'.lastSeen = st.clock + 2003 ∧
        h'.avgResponseTime = (h.avgResponseTime + 2002) / 2) := by
  by_cases hst : h.status = HealthStatus.unhealthy
  · refine ⟨{ h with
        errorRate := (h.errorRate * (h.taskCount : ℚ) + 1) / ((h.taskCount : ℚ) + 1),
        taskCount := h.taskCount + 1 }, ?_, rfl, ?_, ?_⟩
    · simp only [executeWorkflowStep, hh]
      rw [if_pos hst]
      exact mapGet_objSet_self ..
    · rw [if_pos hst]
    · intro hc
      exact absurd hst hc
  · refine ⟨{ h with
        taskCount := h.taskCount + 1, lastSeen := st.clock + 1 + 2000 + 1 + 1,
        avgResponseTime :=
          (h.avgResponseTime + (((st.clock + 1 + 2000 + 1 : Nat) : ℚ) - ((st.clock : Nat) : ℚ))) / 2 },
      ?_, rfl, ?_, ?_⟩
    · simp only [executeWorkflowStep, hh]
      rw [if_neg hst]
      exact mapGet_objSet_self ..
    · rw [if_neg hst]
    · intro _
      refine ⟨rfl, ?_, ?_⟩
      · show st.clock + 1 + 2000 + 1 + 1 = st.clock + 2003
        omega
      · show (h.avgResponseTime + (((st.clock + 1 + 2000 + 1 : Nat) : ℚ) - ((st.clock : Nat) : ℚ))) / 2 =
          (h.avgResponseTime + 2002) / 2
        push_cast
        ring

/-- C2 corrected: for every monitored agent, `errorRate` is a one-sided
smoothed average: a failed workflow step (unhealthy pre-flight check) replaces
it by the blend `(errorRate·taskCount + 1)/(taskCount + 1)`, while a completed
step leaves it unchanged and updates only `taskCount`, `lastSeen` and
`avgResponseTime`; `taskCount` is incremented on both outcomes. -/
theorem errorRate_one_sided_update (st : SupState) (agentName : String) (input : Value)
    (orch : Orchestration) (h : AgentHealth)
    (hh : mapGet agentName st.agentHealth = some h) :
    ∃ h', mapGet agentName (executeWorkflowStep st agentName input orch).1.agentHealth = some h' ∧
      h'.taskCount = h.taskCount + 1 ∧
      h'.errorRate = (if h.status = HealthStatus.unhealthy
          then (h.errorRate * (h.taskCount : ℚ) + 1) / ((h.taskCount : ℚ) + 1)
          else h.errorRate) ∧
      (h.status ≠ HealthStatus.unhealthy →
        h'.errorRate = h.errorRate ∧
        h'.lastSeen = st.clock + 2003 ∧
        h'.avgResponseTime = (h.avgResponseTime + 2002) / 2) :=
  stepHealth_update st agentName input orch h hh

/-- Witness for C2's corrected claim at a concrete input. -/
theorem errorRate_one_sided_update_witness :
    mapGet "cleaner" c2State.agentHealth = some c2Health ∧
    (∃ h', mapGet "cleaner" (executeWorkflowStep c2State "cleaner" (Value.str "d")
          emptyOrch).1.agentHealth = some h' ∧
      h'.taskCount = c2Health.taskCount + 1 ∧
      h'.errorRate = (if c2Health.status = HealthStatus.unhealthy
          then (c2Health.errorRate * (c2Health.taskCount : ℚ) + 1) / ((c2Health.taskCount : ℚ) + 1)
          else c2Health.errorRate) ∧
      (c2Health.status ≠ HealthStatus.unhealthy →
        h'.errorRate = c2Health.errorRate ∧
        h'.lastSeen = c2State.clock + 2003 ∧
        h'.avgResponseTime = (c2Health.avgResponseTime + 2002) / 2)) :=
  ⟨rfl, errorRate_one_sided_update c2State "cleaner" (Value.str "d") emptyOrch c2Health rfl⟩

theorem checkHealth_errorRate (now interval : Nat) (h : AgentHealth) :
    (checkHealth now interval h).errorRate = h.errorRate := by
  simp only [checkHealth]
  split_ifs <;> rfl

theorem blend_bounds (e : ℚ) (t : Nat) (h0 : 0 ≤ e) (h1 : e ≤ 1) :
    e ≤ (e * (t : ℚ) + 1) / ((t : ℚ) + 1) ∧ 0 ≤ (e * (t : ℚ) + 1) / ((t : ℚ) + 1) ∧
      (e * (t : ℚ) + 1) / ((t : ℚ) + 1) ≤ 1 := by
  have htc : (0 : ℚ) ≤ (t : ℚ) := Nat.cast_nonneg t
  have ht : (0 : ℚ) < (t : ℚ) + 1 := by linarith
  refine ⟨?_, ?_, ?_⟩
  · rw [le_div_iff₀ ht]
    nlinarith
  · have hnum : (0 : ℚ) ≤ e * (t : ℚ) + 1 := by nlinarith
    exact div_nonneg hnum ht.le
  · rw [div_le_one ht]
    nlinarith

/-- C10: `errorRate` never decreases over the process lifetime. It is
initialized to 0 at supervisor construction; a workflow step leaves every
agent's `errorRate` in place except the dispatched agent's, which on failure is
replaced by the blend `(e·taskCount + 1)/(taskCount + 1) ≥ e` (for `e ≤ 1`) and
on success is unchanged; and the health-check tick never writes it. So an
elevated error rate is permanent. -/
theorem errorRate_never_decreases :
    (∀ t0 name h, mapGet name (mkSupervisor t0).agentHealth = some h → h.errorRate = 0) ∧
    (∀ st agentName input orch name h h',
        mapGet name st.agentHealth = some h →
        mapGet name (executeWorkflowStep st agentName input orch).1.agentHealth = some h' →
        0 ≤ h.errorRate → h.errorRate ≤ 1 →
        h.errorRate ≤ h'.errorRate ∧ 0 ≤ h'.errorRate ∧ h'.errorRate ≤ 1) ∧
    (∀ st now name h h',
        mapGet name st.agentHealth = some h →
        mapGet name (performHealthChecks st now).agentHealth = some h' →
        h'.errorRate = h.errorRate) := by
  refine ⟨?_, ?_, ?_⟩
  · intro t0 name h hh
    revert hh
    simp only [mkSupervisor, healthNames, List.enum, List.enumFrom, List.map, mkHealth, mapGet]
    split_ifs <;> intro hh <;> first
    | (cases hh; rfl)
    | simp at hh
  · intro st agentName input orch name h h' hh hh' h0 h1
    by_cases hn : name = agentName
    · subst hn
      obtain ⟨h2, hget, htc, her, hsucc⟩ := stepHealth_update st name input orch h hh
      rw [hget] at hh'
      obtain rfl : h2 = h' := by injection hh'
      by_cases hst : h.status = HealthStatus.unhealthy
      · rw [her, if_pos hst]
        exact blend_bounds h.errorRate h.taskCount h0 h1
      · rw [her, if_neg hst]
        exact ⟨le_refl _, h0, h1⟩
    · have hpres : mapGet name (executeWorkflowStep st agentName input orch).1.agentHealth =
          mapGet name st.agentHealth := by
        simp only [executeWorkflowStep]
        cases hma : mapGet agentName st.agentHealth with
        | none => rfl
        | some health =>
          dsimp only
          by_cases hst : health.status = HealthStatus.unhealthy
          · rw [if_pos hst]
            exact mapGet_objSet_ne _ _ hn
          · rw [if_neg hst]
            exact mapGet_objSet_ne _ _ hn
      rw [hpres, hh] at hh'
      obtain rfl : h = h' := by injection hh'
      exact ⟨le_refl _, h0, h1⟩
  · intro st now name h h' hh hh'
    have hmap : (performHealthChecks st now).agentHealth =
        (st.agentHealth.map fun p => (p.1, checkHealth now st.settings.healthCheckInterval p.2)) := rfl
    rw [hmap, mapGet_map, hh] at hh'
    obtain rfl : checkHealth now st.settings.healthCheckInterval h = h' := by injection hh'
    exact checkHealth_errorRate ..

/-- The health record after one successful step on `c2State`. -/
def c2After : AgentHealth :=
  { c2Health with taskCount := 2, lastSeen := 2003, avgResponseTime := 1501 }

/-- The health record after one health tick on `c2State`. -/
def c2Degraded : AgentHealth := { c2Health with status := HealthStatus.degraded }

/-- Witness for C10 at concrete inputs: the initial parser record, one
successful step on `c2State`, and one health tick on `c2State`. -/
theorem errorRate_never_decreases_witness :
    (mkHealth "parser" 0).errorRate = 0 ∧
    (c2Health.errorRate ≤ c2After.errorRate ∧ (0 : ℚ) ≤ c2After.errorRate ∧
      c2After.errorRate ≤ 1) ∧
    c2Degraded.errorRate = c2Health.errorRate := by
  refine ⟨?_, ?_, ?_⟩
  · exact errorRate_never_decreases.1 0 "parser" (mkHealth "parser" 0) rfl
  · refine errorRate_never_decreases.2.1 c2State "cleaner" (Value.str "d") emptyOrch "cleaner"
      c2Health c2After rfl ?_ (by norm_num [c2Health]) (by norm_num [c2Health])
    simp only [executeWorkflowStep, c2State, c2Health, c2After]
    norm_num [mapGet, objSet]
  · refine errorRate_never_decreases.2.2 c2State 0 "cleaner" c2Health c2Degraded rfl ?_
    simp only [performHealthChecks, checkHealth, c2State, c2Health, c2Degraded, defaultSettings]
    norm_num [mapGet]

/-! ### C1: submitTask is not fire-and-forget -/

/-- C1 counterexample: on a fresh `AgentManager`, submitting a task to the
registered (idle) cleaner agent invokes the task's `processTask` handler before
`submitTask`'s promise resolves: `submitTask` awaits `addTask`, which for an
idle agent awaits `processNextTask`, which awaits `processTask`
(AgentManager.ts 41, BaseAgent.ts 50-51, 74). The call is not fire-and-forget. -/
theorem submitTask_not_fire_and_forget_cex :
    ¬ returnsBeforeHandler
        (submitTrace (fun _ => unknownTypeHandler) mkManager "cleaner" "bogus_type" (Value.str "x"))
        "task_1" := by
  unfold returnsBeforeHandler
  decide

/-- C1 corrected: `submitTask` on a registered agent constructs a task with the
fresh id `task_{counter+1}` and returns that id, but the call is not
fire-and-forget: when the agent is idle (with an empty queue, as idle agents
have), the awaited `addTask` runs the drain loop synchronously in promise
order, so the submitted task's `processTask` handler is invoked before
`submitTask` returns — the call trace is enqueue, handler invocation, then
submit-return. -/
theorem submitTask_awaits_idle_agent (handlers : String → Handler) (mgr : ManagerState)
    (agentName taskType : String) (data : Value) (a : AgentState)
    (ha : mapGet agentName mgr.agents = some a) (hidle : a.status = AgentStatus.idle)
    (hq : a.taskQueue = []) :
    ∃ mgr', submitTask handlers mgr agentName taskType data =
        .ok ("task_" ++ toString (mgr.taskCounter + 1), mgr') ∧
      submitTrace handlers mgr agentName taskType data =
        [AgentEvent.taskEnqueued ("task_" ++ toString (mgr.taskCounter + 1)),
         AgentEvent.handlerInvoked ("task_" ++ toString (mgr.taskCounter + 1)),
         AgentEvent.submitReturned ("task_" ++ toString (mgr.taskCounter + 1))] := by
  have hev : ∀ task : AgentTask,
      (addTask (handlers agentName) { a with clock := a.clock + 1 } task).events =
        a.events ++ [AgentEvent.taskEnqueued task.id, AgentEvent.handlerInvoked task.id] := by
    intro task
    simp only [addTask, agentLog, hq]
    simp only [hidle]
    simp only [processNextTask, List.nil_append]
    split
    · split <;> simp [agentLog]
    · rename_i hf
      exact absurd trivial hf
  refine ⟨⟨objSet mgr.agents agentName (addTask (handlers agentName) { a with clock := a.clock + 1 }
      ⟨"task_" ++ toString (mgr.taskCounter + 1), taskType, data, 1, TaskStatus.pending, a.clock,
        none, none, none, none⟩), mgr.taskCounter + 1⟩, ?_, ?_⟩
  · simp only [submitTask, ha]
  · simp only [submitTrace, submitTask, ha, mapGet_objSet_self]
    rw [hev]
    simp [List.drop_left]

/-- Witness for C1's corrected claim: the fresh manager's idle cleaner agent
and a task whose type no cleaner switch case handles. -/
theorem submitTask_awaits_idle_agent_witness :
    mapGet "cleaner" mkManager.agents = some (mkAgent "Cleaner Agent") ∧
    (mkAgent "Cleaner Agent").status = AgentStatus.idle ∧
    (mkAgent "Cleaner Agent").taskQueue = [] ∧
    (∃ mgr', submitTask (fun _ => unknownTypeHandler) mkManager "cleaner" "bogus_type"
          (Value.str "x") = .ok ("task_" ++ toString (mkManager.taskCounter + 1), mgr') ∧
      submitTrace (fun _ => unknownTypeHandler) mkManager "cleaner" "bogus_type" (Value.str "x") =
        [AgentEvent.taskEnqueued ("task_" ++ toString (mkManager.taskCounter + 1)),
         AgentEvent.handlerInvoked ("task_" ++ toString (mkManager.taskCounter + 1)),
         AgentEvent.submitReturned ("task_" ++ toString (mkManager.taskCounter + 1))]) :=
  ⟨rfl, rfl, rfl, submitTask_awaits_idle_agent (fun _ => unknownTypeHandler) mkManager "cleaner"
    "bogus_type" (Value.str "x") (mkAgent "Cleaner Agent") rfl rfl rfl⟩

/-! ### C5, C6, C7: the drain loop -/

@[simp] theorem updateMetrics_tasksProcessed (m : AgentMetrics) (t : AgentTask) :
    (updateMetrics m t).tasksProcessed = m.tasksProcessed := by
  simp only [updateMetrics]
  split <;> rfl

@[simp] theorem updateMetrics_tasksSuccessful (m : AgentMetrics) (t : AgentTask) :
    (updateMetrics m t).tasksSuccessful = m.tasksSuccessful := by
  simp only [updateMetrics]
  split <;> rfl

@[simp] theorem updateMetrics_tasksFailed (m : AgentMetrics) (t : AgentTask) :
    (updateMetrics m t).tasksFailed = m.tasksFailed := by
  simp only [updateMetrics]
  split <;> rfl

theorem processNextTask_chars (handler : Handler) (s : AgentState) :
    (s.taskQueue = [] ∧ processNextTask handler s =
      { s with status := AgentStatus.idle, currentTask := "Ready", progress := 0 }) ∨
    (∃ task rest done, s.taskQueue = task :: rest ∧
      (processNextTask handler s).taskQueue = rest ∧
      (processNextTask handler s).processed = s.processed ++ [done] ∧
      (processNextTask handler s).clock = s.clock + 4 ∧
      (processNextTask handler s).events = s.events ++ [AgentEvent.handlerInvoked task.id] ∧
      (processNextTask handler s).metrics.tasksProcessed = s.metrics.tasksProcessed + 1 ∧
      done.id = task.id ∧ done.type = task.type ∧ done.data = task.data ∧
      done.startedAt = some s.clock ∧ done.completedAt = some (s.clock + 2) ∧
      ((done.status = TaskStatus.completed ∧ (∃ v, done.result = some v) ∧ done.error = task.error ∧
          (processNextTask handler s).metrics.tasksSuccessful = s.metrics.tasksSuccessful + 1 ∧
          (processNextTask handler s).metrics.tasksFailed = s.metrics.tasksFailed) ∨
        (done.status = TaskStatus.failed ∧ (∃ e, done.error = some e) ∧ done.result = task.result ∧
          (processNextTask handler s).metrics.tasksSuccessful = s.metrics.tasksSuccessful ∧
          (processNextTask handler s).metrics.tasksFailed = s.metrics.tasksFailed + 1))) := by
  cases hqe : s.taskQueue with
  | nil =>
    left
    refine ⟨rfl, ?_⟩
    simp only [processNextTask, hqe]
  | cons task rest =>
    right
    simp only [processNextTask, hqe]
    cases hr : handler { task with status := TaskStatus.processing, startedAt := some s.clock } with
    | ok v =>
      refine ⟨task, rest, _, rfl, rfl, rfl, rfl, rfl, ?_, rfl, rfl, rfl, rfl, rfl, Or.inl ⟨rfl, ⟨v, rfl⟩, rfl, ?_, ?_⟩⟩ <;>
        simp [agentLog]
    | error e =>
      refine ⟨task, rest, _, rfl, rfl, rfl, rfl, rfl, ?_, rfl, rfl, rfl, rfl, rfl, Or.inr ⟨rfl, ⟨e, rfl⟩, rfl, ?_, ?_⟩⟩ <;>
        simp [agentLog]

theorem processNextTask_clock_mono (handler : Handler) (s : AgentState) :
    s.clock ≤ (processNextTask handler s).clock := by
  rcases processNextTask_chars handler s with ⟨hq, heq⟩ | ⟨t, r, d, h1, h2, h3, hclock, h5⟩
  · rw [heq]
  · omega

/-- Tasks enter an agent's queue exactly as `AgentManager.submitTask` constructs
them (AgentManager.ts 32-39): pending, unstamped, with no result and no error. -/
def FreshTask (t : AgentTask) : Prop :=
  t.status = TaskStatus.pending ∧ t.startedAt = none ∧ t.completedAt = none ∧
    t.result = none ∧ t.error = none

/-- The agent states reachable from construction through the public operations:
enqueueing a freshly constructed task, and the scheduled drain callbacks. -/
inductive Reachable (handler : Handler) : AgentState → Prop where
  | init (name : String) : Reachable handler (mkAgent name)
  | add {s : AgentState} {t : AgentTask} : Reachable handler s → FreshTask t →
      Reachable handler (addTask handler s t)
  | step {s : AgentState} : Reachable handler s → Reachable handler (drainStep handler s)

def metricsConsistent (s : AgentState) : Prop :=
  s.metrics.tasksProcessed = s.metrics.tasksSuccessful + s.metrics.tasksFailed

theorem metricsConsistent_processNextTask (handler : Handler) (s : AgentState)
    (hs : metricsConsistent s) : metricsConsistent (processNextTask handler s) := by
  unfold metricsConsistent at *
  rcases processNextTask_chars handler s with ⟨hq, heq⟩ |
    ⟨t, r, d, hqe, hq', hp', hc', he', hm', hid, hty, hda, hsa, hca, hbr⟩
  · rw [heq]
    exact hs
  · rcases hbr with ⟨_, _, _, hsucc, hfail⟩ | ⟨_, _, _, hsucc, hfail⟩ <;> omega

theorem metricsConsistent_addTask (handler : Handler) (s : AgentState) (t : AgentTask)
    (hs : metricsConsistent s) : metricsConsistent (addTask handler s t) := by
  simp only [addTask, agentLog]
  split
  · exact metricsConsistent_processNextTask _ _ hs
  · exact hs

theorem metricsConsistent_drainStep (handler : Handler) (s : AgentState)
    (hs : metricsConsistent s) : metricsConsistent (drainStep handler s) := by
  unfold drainStep
  apply metricsConsistent_processNextTask
  unfold metricsConsistent at *
  split <;> exact hs

/-- C7: after every drain-loop iteration and every enqueue, starting from a
freshly constructed agent, `tasksProcessed = tasksSuccessful + tasksFailed`. -/
theorem metrics_consistency (handler : Handler) (s : AgentState) (hs : Reachable handler s) :
    s.metrics.tasksProcessed = s.metrics.tasksSuccessful + s.metrics.tasksFailed := by
  induction hs with
  | init name => rfl
  | add hr hf ih => exact metricsConsistent_addTask _ _ _ ih
  | step hr ih => exact metricsConsistent_drainStep _ _ ih

/-- A concrete freshly constructed task, as `submitTask` would build it. -/
def sampleTask : AgentTask :=
  ⟨"task_1", "bogus_type", Value.str "x", 1, TaskStatus.pending, 0, none, none, none, none⟩

/-- Witness for C7 after one enqueue-and-drain and one further drain callback. -/
theorem metrics_consistency_witness :
    (drainStep unknownTypeHandler (addTask unknownTypeHandler (mkAgent "Cleaner Agent")
        sampleTask)).metrics.tasksProcessed =
      (drainStep unknownTypeHandler (addTask unknownTypeHandler (mkAgent "Cleaner Agent")
        sampleTask)).metrics.tasksSuccessful +
      (drainStep unknownTypeHandler (addTask unknownTypeHandler (mkAgent "Cleaner Agent")
        sampleTask)).metrics.tasksFailed :=
  metrics_consistency unknownTypeHandler _
    (Reachable.step (Reachable.add (Reachable.init "Cleaner Agent") ⟨rfl, rfl, rfl, rfl, rfl⟩))

def terminalExclusive (t : AgentTask) : Prop :=
  (t.status = TaskStatus.completed ∧ t.result.isSome = true ∧ t.error = none) ∨
  (t.status = TaskStatus.failed ∧ t.error.isSome = true ∧ t.result = none)

def agentTasksOK (s : AgentState) : Prop :=
  (∀ t ∈ s.taskQueue, t.result = none ∧ t.error = none) ∧
  (∀ t ∈ s.processed, terminalExclusive t)

theorem agentTasksOK_processNextTask (handler : Handler) (s : AgentState)
    (hs : agentTasksOK s) : agentTasksOK (processNextTask handler s) := by
  obtain ⟨hq, hp⟩ := hs
  rcases processNextTask_chars handler s with ⟨hqe, heq⟩ |
    ⟨task, rest, done, hqe, hq', hp', hc', he', hm', hid, hty, hda, hsa, hca, hbr⟩
  · rw [heq]
    exact ⟨hq, hp⟩
  · constructor
    · intro t ht
      rw [hq'] at ht
      exact hq t (by rw [hqe]; exact List.mem_cons_of_mem _ ht)
    · intro t ht
      rw [hp'] at ht
      rcases List.mem_append.mp ht with h | h
      · exact hp t h
      · have hdt : t = done := by simpa using h
        subst hdt
        have hfresh := hq task (by rw [hqe]; exact List.mem_cons_self _ _)
        rcases hbr with ⟨hst, ⟨v, hres⟩, herr, hx, hy⟩ | ⟨hst, ⟨e, herr⟩, hres, hx, hy⟩
        · exact Or.inl ⟨hst, by simp [hres], by rw [herr]; exact hfresh.2⟩
        · exact Or.inr ⟨hst, by simp [herr], by rw [hres]; exact hfresh.1⟩

theorem agentTasksOK_addTask (handler : Handler) (s : AgentState) (t : AgentTask)
    (ht : t.result = none ∧ t.error = none) (hs : agentTasksOK s) :
    agentTasksOK (addTask handler s t) := by
  obtain ⟨hq, hp⟩ := hs
  have hs2 : ∀ u, u ∈ s.taskQueue ++ [t] → u.result = none ∧ u.error = none := by
    intro u hu
    rcases List.mem_append.mp hu with h | h
    · exact hq u h
    · have : u = t := by simpa using h
      subst this
      exact ht
  simp only [addTask, agentLog]
  split
  · exact agentTasksOK_processNextTask _ _ ⟨hs2, hp⟩
  · exact ⟨hs2, hp⟩

theorem agentTasksOK_drainStep (handler : Handler) (s : AgentState)
    (hs : agentTasksOK s) : agentTasksOK (drainStep handler s) := by
  unfold drainStep
  apply agentTasksOK_processNextTask
  obtain ⟨hq, hp⟩ := hs
  split <;> exact ⟨hq, hp⟩

/-- C6: for every task handled by the drain loop of any reachable agent state,
the task is terminal (completed or failed) and exactly one of `result`/`error`
is set: a completed task has `result` set and `error` unset, a failed task has
`error` set and `result` unset — never both, never neither. -/
theorem task_result_error_exclusive (handler : Handler) (s : AgentState)
    (hs : Reachable handler s) :
    ∀ t ∈ s.processed,
      (t.status = TaskStatus.completed ∨ t.status = TaskStatus.failed) ∧
      (t.status = TaskStatus.completed → t.result.isSome = true ∧ t.error = none) ∧
      (t.status = TaskStatus.failed → t.error.isSome = true ∧ t.result = none) := by
  have hOK : agentTasksOK s := by
    induction hs with
    | init name =>
      exact ⟨fun t ht => absurd ht (List.not_mem_nil t), fun t ht => absurd ht (List.not_mem_nil t)⟩
    | add hr hf ih => exact agentTasksOK_addTask _ _ _ ⟨hf.2.2.2.1, hf.2.2.2.2⟩ ih
    | step hr ih => exact agentTasksOK_drainStep _ _ ih
  intro t ht
  rcases hOK.2 t ht with ⟨hst, hres, herr⟩ | ⟨hst, herr, hres⟩
  · refine ⟨Or.inl hst, fun _ => ⟨hres, herr⟩, fun hf => ?_⟩
    rw [hst] at hf
    cases hf
  · refine ⟨Or.inr hst, fun hc => ?_, fun _ => ⟨herr, hres⟩⟩
    rw [hst] at hc
    cases hc

/-- The task record left by one enqueue-and-drain of `sampleTask` on a fresh
agent whose handler rejects its type. -/
def sampleDone : AgentTask :=
  { sampleTask with
    status := TaskStatus.failed, startedAt := some 1, completedAt := some 3,
    error := some "Unknown task type: bogus_type" }

/-- Witness for C6 after one enqueue-and-drain on a fresh agent, at the one
processed task. -/
theorem task_result_error_exclusive_witness :
    sampleDone ∈ (addTask unknownTypeHandler (mkAgent "Cleaner Agent") sampleTask).processed ∧
    ((sampleDone.status = TaskStatus.completed ∨ sampleDone.status = TaskStatus.failed) ∧
      (sampleDone.status = TaskStatus.completed →
        sampleDone.result.isSome = true ∧ sampleDone.error = none) ∧
      (sampleDone.status = TaskStatus.failed →
        sampleDone.error.isSome = true ∧ sampleDone.result = none)) :=
  ⟨by decide,
    task_result_error_exclusive unknownTypeHandler
      (addTask unknownTypeHandler (mkAgent "Cleaner Agent") sampleTask)
      (@Reachable.add unknownTypeHandler (mkAgent "Cleaner Agent") sampleTask
        (Reachable.init "Cleaner Agent") ⟨rfl, rfl, rfl, rfl, rfl⟩)
      sampleDone (by decide)⟩

def stamped (t : AgentTask) (c : Nat) : Prop :=
  ∃ a b, t.startedAt = some a ∧ t.completedAt = some b ∧ a ≤ b ∧ b < c

def histOrdered (s : AgentState) : Prop :=
  (∀ t ∈ s.processed, stamped t s.clock) ∧
  s.processed.Pairwise (fun x y => ∀ cx sy, x.completedAt = some cx → y.startedAt = some sy → cx ≤ sy)

theorem histOrdered_processNextTask (handler : Handler) (s : AgentState)
    (hs : histOrdered s) : histOrdered (processNextTask handler s) := by
  obtain ⟨hst, hpw⟩ := hs
  rcases processNextTask_chars handler s with ⟨hqe, heq⟩ |
    ⟨task, rest, done, hqe, hq', hp', hc', he', hm', hid, hty, hda, hsa, hca, hbr⟩
  · rw [heq]
    exact ⟨hst, hpw⟩
  · constructor
    · intro t ht
      rw [hp'] at ht
      rw [hc']
      rcases List.mem_append.mp ht with h | h
      · obtain ⟨a, b, h1, h2, h3, h4⟩ := hst t h
        exact ⟨a, b, h1, h2, h3, by omega⟩
      · have : t = done := by simpa using h
        subst this
        exact ⟨s.clock, s.clock + 2, hsa, hca, by omega, by omega⟩
    · rw [hp', List.pairwise_append]
      refine ⟨hpw, List.pairwise_singleton .., ?_⟩
      intro x hx y hy
      have : y = done := by simpa using hy
      subst this
      intro cx sy hcx hsy
      obtain ⟨a, b, h1, h2, h3, h4⟩ := hst x hx
      have hb : cx = b := by rw [h2] at hcx; injection hcx with h5; omega
      have hsc : sy = s.clock := by rw [hsa] at hsy; injection hsy with h5; omega
      omega

theorem histOrdered_drainStep (handler : Handler) (s : AgentState)
    (hs : histOrdered s) : histOrdered (drainStep handler s) := by
  unfold drainStep
  apply histOrdered_processNextTask
  obtain ⟨h1, h2⟩ := hs
  split <;> exact ⟨h1, h2⟩

theorem drainStep_queue_processed (handler : Handler) (s : AgentState) :
    (drainStep handler s).taskQueue = s.taskQueue.drop 1 ∧
    (drainStep handler s).processed.map AgentTask.id =
      s.processed.map AgentTask.id ++ (s.taskQueue.take 1).map AgentTask.id := by
  unfold drainStep
  set s' := if s.status = AgentStatus.error then { s with status := AgentStatus.idle } else s with hs'
  have hq : s'.taskQueue = s.taskQueue := by rw [hs']; split <;> rfl
  have hp : s'.processed = s.processed := by rw [hs']; split <;> rfl
  rcases processNextTask_chars handler s' with ⟨hqe, heq⟩ |
    ⟨task, rest, done, hqe, hq', hp', hc', he', hm', hid, hty, hda, hsa, hca, hbr⟩
  · have hnil : s.taskQueue = [] := by rw [← hq]; exact hqe
    rw [heq]
    constructor
    · show s'.taskQueue = s.taskQueue.drop 1
      rw [hq, hnil]
      rfl
    · show s'.processed.map AgentTask.id = _
      rw [hp, hnil]
      simp
  · have hcons : s.taskQueue = task :: rest := by rw [← hq]; exact hqe
    constructor
    · rw [hq', hcons]
      rfl
    · rw [hp', hp, hcons]
      simp [hid]

theorem drain_chars (handler : Handler) : ∀ (n : Nat) (s : AgentState),
    histOrdered s →
    histOrdered (drain handler n s) ∧
    (drain handler n s).processed.map AgentTask.id =
      s.processed.map AgentTask.id ++ (s.taskQueue.take n).map AgentTask.id ∧
    (drain handler n s).taskQueue = s.taskQueue.drop n := by
  intro n
  induction n with
  | zero =>
    intro s hs
    simpa using ⟨hs, rfl, rfl⟩
  | succ n ih =>
    intro s hs
    obtain ⟨H1, H2, H3⟩ := ih (drainStep handler s) (histOrdered_drainStep handler s hs)
    obtain ⟨hq1, hp1⟩ := drainStep_queue_processed handler s
    have hstep : drain handler (n + 1) s = drain handler n (drainStep handler s) := rfl
    refine ⟨by rw [hstep]; exact H1, ?_, ?_⟩
    · rw [hstep, H2, hp1, hq1, List.append_assoc, ← List.map_append, ← List.take_add]
      have : 1 + n = n + 1 := Nat.add_comm 1 n
      rw [this]
    · rw [hstep, H3, hq1, List.drop_drop]
      have : 1 + n = n + 1 := Nat.add_comm 1 n
      rw [this]

/-- C5: strict FIFO. For tasks enqueued before either starts (an agent whose
history is empty and whose queue lists them in submission order), draining
processes them in exact queue order, and for any earlier task at position `i`
and later task at position `j > i` of the resulting history, the earlier
task's `completedAt` is at or before the later task's `startedAt`: a later
task never begins before an earlier one reaches a terminal state. -/
theorem fifo_drain_order (handler : Handler) (s : AgentState) (hp0 : s.processed = [])
    (n i j : Nat) (hij : i < j) (hj : j < ((drain handler n s).processed).length) :
    ((drain handler n s).processed).map AgentTask.id = ((s.taskQueue.take n).map AgentTask.id) ∧
    ∃ ti tj, (drain handler n s).processed[i]? = some ti ∧
      (drain handler n s).processed[j]? = some tj ∧
      ∃ ci sj, ti.completedAt = some ci ∧ tj.startedAt = some sj ∧ ci ≤ sj := by
  have hs0 : histOrdered s := by
    constructor
    · intro t ht
      rw [hp0] at ht
      exact absurd ht (List.not_mem_nil t)
    · rw [hp0]
      exact List.Pairwise.nil
  obtain ⟨⟨hst, hpw⟩, hids, hqq⟩ := drain_chars handler n s hs0
  have hi : i < ((drain handler n s).processed).length := Nat.lt_trans hij hj
  refine ⟨by rw [hids, hp0]; simp, ?_⟩
  refine ⟨(drain handler n s).processed[i], (drain handler n s).processed[j],
    List.getElem?_eq_getElem hi, List.getElem?_eq_getElem hj, ?_⟩
  have hrel := List.pairwise_iff_getElem.mp hpw i j hi hj hij
  obtain ⟨ai, bi, h1i, h2i, h3i, h4i⟩ := hst _ (List.getElem_mem hi)
  obtain ⟨aj, bj, h1j, h2j, h3j, h4j⟩ := hst _ (List.getElem_mem hj)
  exact ⟨bi, aj, h2i, h1j, hrel bi aj h2i h1j⟩

/-- A second concrete fresh task. -/
def sampleTaskB : AgentTask := { sampleTask with id := "task_2" }

/-- An agent with two tasks enqueued before either starts. -/
def twoTaskAgent : AgentState := { mkAgent "Cleaner Agent" with taskQueue := [sampleTask, sampleTaskB] }

/-- Witness for C5: two tasks enqueued on a fresh agent, drained twice. -/
theorem fifo_drain_order_witness :
    twoTaskAgent.processed = [] ∧ (0 : Nat) < 1 ∧
    1 < ((drain unknownTypeHandler 2 twoTaskAgent).processed).length ∧
    (((drain unknownTypeHandler 2 twoTaskAgent).processed).map AgentTask.id =
        ((twoTaskAgent.taskQueue.take 2).map AgentTask.id) ∧
      ∃ ti tj, (drain unknownTypeHandler 2 twoTaskAgent).processed[0]? = some ti ∧
        (drain unknownTypeHandler 2 twoTaskAgent).processed[1]? = some tj ∧
        ∃ ci sj, ti.completedAt = some ci ∧ tj.startedAt = some sj ∧ ci ≤ sj) :=
  ⟨rfl, by omega, by decide,
    fifo_drain_order unknownTypeHandler twoTaskAgent rfl 2 0 1 (by omega) (by decide)⟩

/-! ### C3 and C4: workflow orchestration -/

/-- Whether the pre-flight health check (AgentManager.ts 278-281) lets a step
through: the agent has a health record whose status is not `unhealthy`. A
workflow step on agent `n` succeeds iff `stepOK st n`. -/
def stepOK (st : SupState) (n : String) : Bool :=
  match mapGet n st.agentHealth with
  | some h => decide (h.status ≠ HealthStatus.unhealthy)
  | none => false

theorem executeWorkflowStep_stepOK (st : SupState) (step : String) (input : Value)
    (orch : Orchestration) (n : String) :
    stepOK (executeWorkflowStep st step input orch).1 n = stepOK st n := by
  simp only [executeWorkflowStep]
  cases hma : mapGet step st.agentHealth with
  | none => rfl
  | some health =>
    dsimp only
    by_cases hst : health.status = HealthStatus.unhealthy
    · rw [if_pos hst]
      by_cases hn : n = step
      · subst hn
        simp only [stepOK]
        rw [mapGet_objSet_self, hma]
      · simp only [stepOK]
        rw [mapGet_objSet_ne _ _ hn]
    · rw [if_neg hst]
      by_cases hn : n = step
      · subst hn
        simp only [stepOK]
        rw [mapGet_objSet_self, hma]
      · simp only [stepOK]
        rw [mapGet_objSet_ne _ _ hn]

theorem executeWorkflowStep_chars (st : SupState) (step : String) (input : Value)
    (orch : Orchestration) :
    ∃ rec, (executeWorkflowStep st step input orch).2.1 =
        { orch with steps := orch.steps ++ [rec] } ∧
      rec.agent = step ∧ rec.inputData = input ∧
      ((stepOK st step = true ∧ rec.status = "completed" ∧
          ∃ v, rec.result = some v ∧ (executeWorkflowStep st step input orch).2.2 = Except.ok v) ∨
       (stepOK st step = false ∧ rec.status = "failed" ∧ rec.result = none ∧
          (executeWorkflowStep st step input orch).2.2 =
            Except.error ("Agent " ++ step ++ " is unhealthy"))) := by
  cases hma : mapGet step st.agentHealth with
  | none =>
    refine ⟨⟨step, st.clock, "failed", input, none,
        some ("Agent " ++ step ++ " is unhealthy"), some (st.clock + 1)⟩,
      ?_, rfl, rfl, Or.inr ⟨?_, rfl, rfl, ?_⟩⟩
    · simp only [executeWorkflowStep, hma]
    · simp only [stepOK, hma]
    · simp only [executeWorkflowStep, hma]
  | some health =>
    by_cases hst : health.status = HealthStatus.unhealthy
    · refine ⟨⟨step, st.clock, "failed", input, none,
          some ("Agent " ++ step ++ " is unhealthy"), some (st.clock + 1)⟩,
        ?_, rfl, rfl, Or.inr ⟨?_, rfl, rfl, ?_⟩⟩
      · simp only [executeWorkflowStep, hma]
        rw [if_pos hst]
      · simp only [stepOK, hma, hst]
        rfl
      · simp only [executeWorkflowStep, hma]
        rw [if_pos hst]
    · refine ⟨⟨step, st.clock, "completed", input,
          some (Value.stepResult step (st.clock + 1 + 2000) input), none,
          some (st.clock + 1 + 2000 + 1)⟩,
        ?_, rfl, rfl,
        Or.inl ⟨?_, rfl, ⟨Value.stepResult step (st.clock + 1 + 2000) input, rfl, ?_⟩⟩⟩
      · simp only [executeWorkflowStep, hma]
        rw [if_neg hst]
      · simp only [stepOK, hma]
        simp [hst]
      · simp only [executeWorkflowStep, hma]
        rw [if_neg hst]
/-- The data-threading discipline of a sequential run: the first record received
`input`, each later record received the previous record's result, and a record
with no result (a failed step) is the last. -/
def threadedFrom (input : Value) : List StepExecution → Prop
  | [] => True
  | r :: rest =>
    r.inputData = input ∧ (∀ v, r.result = some v → threadedFrom v rest) ∧
      (r.result = none → rest = [])

theorem runSequentialSteps_chars (steps : List String) :
    ∀ (st : SupState) (data : Value) (orch : Orchestration),
    steps.Nodup → (∀ n ∈ steps, n ∉ orch.results.map Prod.fst) →
    ∃ recs,
      (runSequentialSteps st steps data orch).2.1.steps = orch.steps ++ recs ∧
      (runSequentialSteps st steps data orch).2.1.errors = orch.errors ∧
      recs.map StepExecution.agent = steps.take recs.length ∧
      threadedFrom data recs ∧
      (∀ r ∈ recs.dropLast, r.status = "completed") ∧
      ((∃ v, (runSequentialSteps st steps data orch).2.2 = Except.ok v ∧
          recs.length = steps.length ∧
          (∀ r ∈ recs, r.status = "completed") ∧
          (runSequentialSteps st steps data orch).2.1.results.map Prod.fst =
            orch.results.map Prod.fst ++ steps) ∨
       (∃ e, (runSequentialSteps st steps data orch).2.2 = Except.error e ∧
          0 < recs.length ∧ recs.length ≤ steps.length ∧
          (∀ r, recs.getLast? = some r → r.status = "failed") ∧
          (runSequentialSteps st steps data orch).2.1.results.map Prod.fst =
            orch.results.map Prod.fst ++ steps.take (recs.length - 1))) := by
  induction steps with
  | nil =>
    intro st data orch hnd hfresh
    refine ⟨[], by simp [runSequentialSteps], rfl, rfl, trivial, by simp, Or.inl ⟨data, rfl, rfl, by simp, by simp [runSequentialSteps]⟩⟩
  | cons step rest ih =>
    intro st data orch hnd hfresh
    obtain ⟨rec, horch, hagent, hinput, hout⟩ := executeWorkflowStep_chars st step data orch
    rcases hE : executeWorkflowStep st step data orch with ⟨st', orch', out⟩
    rw [hE] at horch hout
    have hkeys : step ∉ orch.results.map Prod.fst := hfresh step (List.mem_cons_self ..)
    rcases hout with ⟨hok, hrst, v, hres, hval⟩ | ⟨hok, hrst, hres, hval⟩
    · -- step succeeded: recurse
      subst hval
      have hrun : runSequentialSteps st (step :: rest) data orch =
          runSequentialSteps st' rest v { orch' with results := objSet orch'.results step v } := by
        simp only [runSequentialSteps, hE]
      have horch' : orch' = { orch with steps := orch.steps ++ [rec] } := horch
      have hfresh' : ∀ n ∈ rest, n ∉
          ({ orch' with results := objSet orch'.results step v }).results.map Prod.fst := by
        intro n hn
        have hkeys' : (objSet orch'.results step v).map Prod.fst =
            orch'.results.map Prod.fst ++ [step] := by
          apply objSet_keys_of_not_mem
          rw [horch']
          exact hkeys
        show n ∉ (objSet orch'.results step v).map Prod.fst
        rw [hkeys', horch']
        intro hmem
        rcases List.mem_append.mp hmem with h | h
        · exact hfresh n (List.mem_cons_of_mem _ hn) h
        · have : n = step := by simpa using h
          exact (List.nodup_cons.mp hnd).1 (this ▸ hn)
      obtain ⟨recs', hsteps', herr', hmap', hthr', hdrop', hout'⟩ :=
        ih st' v { orch' with results := objSet orch'.results step v }
          (List.nodup_cons.mp hnd).2 hfresh'
      have hkeys2 : ({ orch' with results := objSet orch'.results step v }).results.map Prod.fst =
          orch.results.map Prod.fst ++ [step] := by
        show (objSet orch'.results step v).map Prod.fst = _
        rw [horch']
        exact objSet_keys_of_not_mem _ _ hkeys
      refine ⟨rec :: recs', ?_, ?_, ?_, ?_, ?_, ?_⟩
      · rw [hrun, hsteps', horch']
        simp
      · rw [hrun, herr', horch']
      · simp only [List.length_cons, List.take_succ_cons, List.map_cons, hagent]
        rw [hmap']
      · refine ⟨hinput, ?_, ?_⟩
        · intro w hw
          rw [hres] at hw
          injection hw with hw
          subst hw
          exact hthr'
        · intro hnone
          rw [hres] at hnone
          cases hnone
      · cases recs' with
        | nil =>
          intro r hr
          cases hr
        | cons a as =>
          intro r hr
          have hr' : r ∈ rec :: (a :: as).dropLast := hr
          rcases List.mem_cons.mp hr' with h1 | h1
          · exact h1 ▸ hrst
          · exact hdrop' r h1
      · rcases hout' with ⟨v', hv', hlen', hall', hkeysr'⟩ | ⟨e', he', hpos', hlen', hlast', hkeysr'⟩
        · refine Or.inl ⟨v', by rw [hrun]; exact hv', by simp [hlen'], ?_, ?_⟩
          · intro r hr
            rcases List.mem_cons.mp hr with h1 | h1
            · exact h1 ▸ hrst
            · exact hall' r h1
          · rw [hrun, hkeysr', hkeys2]
            simp
        · refine Or.inr ⟨e', by rw [hrun]; exact he', by simp, by simp [Nat.succ_le_succ hlen'], ?_, ?_⟩
          · cases recs' with
            | nil => simp at hpos'
            | cons a as =>
              intro r hr
              have hr' : (a :: as).getLast? = some r := hr
              exact hlast' r hr'
          · rw [hrun, hkeysr', hkeys2]
            have hn1 : (rec :: recs').length - 1 = (recs'.length - 1) + 1 := by
              simp only [List.length_cons]
              omega
            rw [hn1, List.take_succ_cons]
            simp
    · -- step failed: abort
      have horch2 : orch' = { orch with steps := orch.steps ++ [rec] } := horch
      have hval2 : out = Except.error ("Agent " ++ step ++ " is unhealthy") := hval
      have hrun : runSequentialSteps st (step :: rest) data orch = (st', orch', out) := by
        simp only [runSequentialSteps, hE]
        rw [hval2]
      refine ⟨[rec], ?_, ?_, by simp [hagent], ⟨hinput, ?_, fun _ => rfl⟩, by simp, ?_⟩
      · rw [hrun]
        show orch'.steps = _
        rw [horch2]
      · rw [hrun]
        show orch'.errors = _
        rw [horch2]
      · intro w hw
        rw [hres] at hw
        cases hw
      · refine Or.inr ⟨"Agent " ++ step ++ " is unhealthy", ?_, by simp, by simp, ?_, ?_⟩
        · rw [hrun]
          exact hval2
        · intro r hr
          simp at hr
          exact hr ▸ hrst
        · rw [hrun]
          show orch'.results.map Prod.fst = _
          rw [horch2]
          simp
/-- C3: for every registered workflow with `parallel = false` (whose steps are
distinct, as both registered workflows' are) and every input and supervisor
state, `orchestrateWorkflow` executes the steps one at a time in listed order
(the step records' agents are exactly a prefix of the step list), threading
each step's result into the next step's input rather than the original input;
if a step throws, no later step is executed, the execution's status becomes
"failed", and the results map holds entries exactly for the steps completed
before the failure; if no step throws, the status is "completed" and every
step has a results entry. -/
theorem sequential_workflow (st : SupState) (wname : String) (wf : Workflow) (input : Value)
    (hwf : mapGet wname st.workflows = some wf) (hpar : wf.parallel = false)
    (hnd : wf.steps.Nodup) :
    ∃ orch, (orchestrateWorkflow st wname input).2.1 = some orch ∧
      threadedFrom input orch.steps ∧
      orch.steps.map StepExecution.agent = wf.steps.take orch.steps.length ∧
      (∀ r ∈ orch.steps.dropLast, r.status = "completed") ∧
      ((orchestrateWorkflow st wname input).2.2 = none →
        orch.status = "completed" ∧ orch.steps.length = wf.steps.length ∧
        orch.results.map Prod.fst = wf.steps) ∧
      (∀ e, (orchestrateWorkflow st wname input).2.2 = some e →
        orch.status = "failed" ∧ 0 < orch.steps.length ∧ orch.steps.length ≤ wf.steps.length ∧
        (∀ r, orch.steps.getLast? = some r → r.status = "failed") ∧
        orch.results.map Prod.fst = wf.steps.take (orch.steps.length - 1)) := by
  obtain ⟨recs, hsteps, herr, hmap, hthr, hdrop, hout⟩ :=
    runSequentialSteps_chars wf.steps { st with clock := st.clock + 1 + 1 } input
      ⟨"workflow_" ++ toString st.clock, wname, st.clock + 1, "running", [], [], [], none⟩
      hnd (by intro n hn; simp)
  rcases hE : runSequentialSteps { st with clock := st.clock + 1 + 1 } wf.steps input
      ⟨"workflow_" ++ toString st.clock, wname, st.clock + 1, "running", [], [], [], none⟩
    with ⟨st1, orch1, out⟩
  rw [hE] at hsteps herr hout
  have hsteps1 : orch1.steps = recs := by simpa using hsteps
  have herr1 : orch1.errors = [] := herr
  simp only [orchestrateWorkflow, hwf]
  rw [if_neg (by simp [hpar])]
  rw [hE]
  cases out with
  | ok v =>
    rcases hout with ⟨v', hv', hlen', hall', hkeys'⟩ | ⟨e', he', hpos', hlen', hlast', hkeys'⟩
    · refine ⟨_, rfl, ?_, ?_, ?_, ?_, ?_⟩
      · show threadedFrom input orch1.steps
        rw [hsteps1]
        exact hthr
      · show orch1.steps.map StepExecution.agent = wf.steps.take orch1.steps.length
        rw [hsteps1]
        exact hmap
      · show ∀ r ∈ orch1.steps.dropLast, r.status = "completed"
        rw [hsteps1]
        exact hdrop
      · intro _
        refine ⟨?_, ?_, ?_⟩
        · show (if 0 < orch1.errors.length then "completed_with_errors" else "completed") = "completed"
          rw [herr1]
          rfl
        · show orch1.steps.length = wf.steps.length
          rw [hsteps1, hlen']
        · show orch1.results.map Prod.fst = wf.steps
          simpa using hkeys'
      · intro e he
        cases he
    · exact absurd he' (by simp)
  | error e =>
    rcases hout with ⟨v', hv', hlen', hall', hkeys'⟩ | ⟨e', he', hpos', hlen', hlast', hkeys'⟩
    · exact absurd hv' (by simp)
    · have hee : e' = e := by injection he' with h; exact h.symm
      subst hee
      refine ⟨_, rfl, ?_, ?_, ?_, ?_, ?_⟩
      · show threadedFrom input orch1.steps
        rw [hsteps1]
        exact hthr
      · show orch1.steps.map StepExecution.agent = wf.steps.take orch1.steps.length
        rw [hsteps1]
        exact hmap
      · show ∀ r ∈ orch1.steps.dropLast, r.status = "completed"
        rw [hsteps1]
        exact hdrop
      · intro hcontra
        cases hcontra
      · intro e2 he2
        refine ⟨rfl, ?_, ?_, ?_, ?_⟩
        · show 0 < orch1.steps.length
          rw [hsteps1]
          exact hpos'
        · show orch1.steps.length ≤ wf.steps.length
          rw [hsteps1]
          exact hlen'
        · show ∀ r, orch1.steps.getLast? = some r → r.status = "failed"
          rw [hsteps1]
          exact hlast'
        · show orch1.results.map Prod.fst = wf.steps.take (orch1.steps.length - 1)
          rw [hsteps1]
          simpa using hkeys'
theorem runParallelSteps_chars (steps : List String) :
    ∀ (st : SupState) (input : Value) (orch : Orchestration),
    steps.Nodup → (∀ n ∈ steps, n ∉ orch.results.map Prod.fst) →
    ∃ recs,
      (runParallelSteps st steps input orch).2.steps = orch.steps ++ recs ∧
      recs.map StepExecution.agent = steps ∧
      (∀ r ∈ recs, r.inputData = input) ∧
      (runParallelSteps st steps input orch).2.results.map Prod.fst =
        orch.results.map Prod.fst ++ steps.filter (fun n => stepOK st n) ∧
      (runParallelSteps st steps input orch).2.errors.map Prod.fst =
        orch.errors.map Prod.fst ++ steps.filter (fun n => !(stepOK st n)) := by
  induction steps with
  | nil =>
    intro st input orch hnd hfresh
    exact ⟨[], by simp [runParallelSteps], rfl, by simp, by simp [runParallelSteps],
      by simp [runParallelSteps]⟩
  | cons step rest ih =>
    intro st input orch hnd hfresh
    obtain ⟨rec, horch, hagent, hinput, hout⟩ := executeWorkflowStep_chars st step input orch
    rcases hE : executeWorkflowStep st step input orch with ⟨st', orch', out⟩
    rw [hE] at horch hout
    have horch2 : orch' = { orch with steps := orch.steps ++ [rec] } := horch
    have hOKpres : ∀ n, stepOK st' n = stepOK st n := by
      intro n
      have hpres := executeWorkflowStep_stepOK st step input orch n
      rw [hE] at hpres
      exact hpres
    have hkeys : step ∉ orch.results.map Prod.fst := hfresh step (List.mem_cons_self ..)
    rcases hout with ⟨hok, hrst, v, hres, hval⟩ | ⟨hok, hrst, hres, hval⟩
    · have hval2 : out = Except.ok v := hval
      subst hval2
      have hrun : runParallelSteps st (step :: rest) input orch =
          runParallelSteps st' rest input { orch' with results := objSet orch'.results step v } := by
        simp only [runParallelSteps, hE]
      have hkeys2 : ({ orch' with results := objSet orch'.results step v }).results.map Prod.fst =
          orch.results.map Prod.fst ++ [step] := by
        show (objSet orch'.results step v).map Prod.fst = _
        rw [horch2]
        exact objSet_keys_of_not_mem _ _ hkeys
      have hfresh' : ∀ n ∈ rest,
          n ∉ ({ orch' with results := objSet orch'.results step v }).results.map Prod.fst := by
        intro n hn
        rw [hkeys2]
        intro hmem
        rcases List.mem_append.mp hmem with h | h
        · exact hfresh n (List.mem_cons_of_mem _ hn) h
        · have : n = step := by simpa using h
          exact (List.nodup_cons.mp hnd).1 (this ▸ hn)
      obtain ⟨recs', hsteps', hmap', hin', hres', herr'⟩ :=
        ih st' input { orch' with results := objSet orch'.results step v }
          (List.nodup_cons.mp hnd).2 hfresh'
      have hfc1 : rest.filter (fun n => stepOK st' n) = rest.filter (fun n => stepOK st n) :=
        List.filter_congr fun n hn => by rw [hOKpres n]
      have hfc2 : rest.filter (fun n => !(stepOK st' n)) = rest.filter (fun n => !(stepOK st n)) :=
        List.filter_congr fun n hn => by rw [hOKpres n]
      refine ⟨rec :: recs', ?_, ?_, ?_, ?_, ?_⟩
      · rw [hrun, hsteps', horch2]
        simp
      · simp [hagent, hmap']
      · intro r hr
        rcases List.mem_cons.mp hr with h | h
        · exact h ▸ hinput
        · exact hin' r h
      · rw [hrun, hres', hkeys2, hfc1]
        simp [List.filter_cons, hok]
      · rw [hrun, herr']
        show orch'.errors.map Prod.fst ++ _ = _
        rw [horch2, hfc2]
        simp [List.filter_cons, hok]
    · have hval2 : out = Except.error ("Agent " ++ step ++ " is unhealthy") := hval
      subst hval2
      have hrun : runParallelSteps st (step :: rest) input orch =
          runParallelSteps st' rest input
            { orch' with errors := orch'.errors ++ [(step, "Agent " ++ step ++ " is unhealthy")] } := by
        simp only [runParallelSteps, hE]
      have hfresh' : ∀ n ∈ rest,
          n ∉ ({ orch' with errors := orch'.errors ++ [(step, "Agent " ++ step ++ " is unhealthy")] }).results.map Prod.fst := by
        intro n hn
        show n ∉ orch'.results.map Prod.fst
        rw [horch2]
        exact hfresh n (List.mem_cons_of_mem _ hn)
      obtain ⟨recs', hsteps', hmap', hin', hres', herr'⟩ :=
        ih st' input
          { orch' with errors := orch'.errors ++ [(step, "Agent " ++ step ++ " is unhealthy")] }
          (List.nodup_cons.mp hnd).2 hfresh'
      have hfc1 : rest.filter (fun n => stepOK st' n) = rest.filter (fun n => stepOK st n) :=
        List.filter_congr fun n hn => by rw [hOKpres n]
      have hfc2 : rest.filter (fun n => !(stepOK st' n)) = rest.filter (fun n => !(stepOK st n)) :=
        List.filter_congr fun n hn => by rw [hOKpres n]
      refine ⟨rec :: recs', ?_, ?_, ?_, ?_, ?_⟩
      · rw [hrun, hsteps', horch2]
        simp
      · simp [hagent, hmap']
      · intro r hr
        rcases List.mem_cons.mp hr with h | h
        · exact h ▸ hinput
        · exact hin' r h
      · rw [hrun, hres']
        show orch'.results.map Prod.fst ++ _ = _
        rw [horch2, hfc1]
        simp [List.filter_cons, hok]
      · rw [hrun, herr']
        show (orch'.errors ++ [(step, "Agent " ++ step ++ " is unhealthy")]).map Prod.fst ++ _ = _
        rw [horch2, hfc2]
        simp [List.filter_cons, hok]
/-- C4: for every registered workflow with `parallel = true` (with distinct
steps) and every input and supervisor state, `orchestrateWorkflow` settles
every step regardless of individual outcomes — no fail-fast: the step records
cover the whole step list and each received the original input; each
succeeding step's value is recorded under its name in `results`, each failing
step is captured in the `errors` list, nothing is rethrown, and the final
status is "completed_with_errors" exactly when at least one step failed, else
"completed". -/
theorem parallel_workflow (st : SupState) (wname : String) (wf : Workflow) (input : Value)
    (hwf : mapGet wname st.workflows = some wf) (hpar : wf.parallel = true)
    (hnd : wf.steps.Nodup) :
    ∃ orch, (orchestrateWorkflow st wname input).2.1 = some orch ∧
      (orchestrateWorkflow st wname input).2.2 = none ∧
      orch.steps.map StepExecution.agent = wf.steps ∧
      (∀ r ∈ orch.steps, r.inputData = input) ∧
      orch.results.map Prod.fst = wf.steps.filter (fun n => stepOK st n) ∧
      orch.errors.map Prod.fst = wf.steps.filter (fun n => !(stepOK st n)) ∧
      orch.status = (if (wf.steps.filter (fun n => !(stepOK st n))).length = 0
        then "completed" else "completed_with_errors") := by
  obtain ⟨recs, hsteps, hmap, hin, hres, herr⟩ :=
    runParallelSteps_chars wf.steps { st with clock := st.clock + 1 + 1 } input
      ⟨"workflow_" ++ toString st.clock, wname, st.clock + 1, "running", [], [], [], none⟩
      hnd (by intro n hn; simp)
  rcases hE : runParallelSteps { st with clock := st.clock + 1 + 1 } wf.steps input
      ⟨"workflow_" ++ toString st.clock, wname, st.clock + 1, "running", [], [], [], none⟩
    with ⟨st1, orch1⟩
  rw [hE] at hsteps hres herr
  have hOKeq : ∀ n, stepOK { st with clock := st.clock + 1 + 1 } n = stepOK st n := fun n => rfl
  have hfc1 : wf.steps.filter (fun n => stepOK { st with clock := st.clock + 1 + 1 } n) =
      wf.steps.filter (fun n => stepOK st n) :=
    List.filter_congr fun n hn => by rw [hOKeq n]
  have hfc2 : wf.steps.filter (fun n => !(stepOK { st with clock := st.clock + 1 + 1 } n)) =
      wf.steps.filter (fun n => !(stepOK st n)) :=
    List.filter_congr fun n hn => by rw [hOKeq n]
  have hsteps1 : orch1.steps = recs := by simpa using hsteps
  have hres1 : orch1.results.map Prod.fst = wf.steps.filter (fun n => stepOK st n) := by
    rw [← hfc1]
    simpa using hres
  have herr1 : orch1.errors.map Prod.fst = wf.steps.filter (fun n => !(stepOK st n)) := by
    rw [← hfc2]
    simpa using herr
  simp only [orchestrateWorkflow, hwf]
  rw [if_pos (by simp [hpar])]
  rw [hE]
  refine ⟨_, rfl, rfl, ?_, ?_, ?_, ?_, ?_⟩
  · show orch1.steps.map StepExecution.agent = wf.steps
    rw [hsteps1, hmap]
  · show ∀ r ∈ orch1.steps, r.inputData = input
    rw [hsteps1]
    exact hin
  · exact hres1
  · exact herr1
  · show (if 0 < orch1.errors.length then "completed_with_errors" else "completed") = _
    have hlen : orch1.errors.length = (wf.steps.filter (fun n => !(stepOK st n))).length := by
      have hml := congrArg List.length herr1
      simpa using hml
    rw [hlen]
    rcases Nat.eq_zero_or_pos ((wf.steps.filter (fun n => !(stepOK st n))).length) with h0 | h0
    · rw [h0]
      simp
    · rw [if_pos h0, if_neg (by omega)]

/-- The `data_processing` workflow as registered (AgentManager.ts 147-152). -/
def dataProcessingWorkflow : Workflow :=
  { name := "Data Processing Pipeline", steps := ["parser", "cleaner", "labeler", "reviewer"],
    parallel := false, retryOnFailure := true }

/-- The `quality_assurance` workflow as registered (AgentManager.ts 154-159). -/
def qualityAssuranceWorkflow : Workflow :=
  { name := "Quality Assurance Pipeline", steps := ["reviewer", "trainer"],
    parallel := true, retryOnFailure := false }

/-- Witness for C3: the registered `data_processing` workflow on a fresh
supervisor. -/
theorem sequential_workflow_witness :
    mapGet "data_processing" (mkSupervisor 0).workflows = some dataProcessingWorkflow ∧
    dataProcessingWorkflow.parallel = false ∧ dataProcessingWorkflow.steps.Nodup ∧
    (∃ orch, (orchestrateWorkflow (mkSupervisor 0) "data_processing" (Value.str "x")).2.1 = some orch ∧
      threadedFrom (Value.str "x") orch.steps ∧
      orch.steps.map StepExecution.agent = dataProcessingWorkflow.steps.take orch.steps.length ∧
      (∀ r ∈ orch.steps.dropLast, r.status = "completed") ∧
      ((orchestrateWorkflow (mkSupervisor 0) "data_processing" (Value.str "x")).2.2 = none →
        orch.status = "completed" ∧ orch.steps.length = dataProcessingWorkflow.steps.length ∧
        orch.results.map Prod.fst = dataProcessingWorkflow.steps) ∧
      (∀ e, (orchestrateWorkflow (mkSupervisor 0) "data_processing" (Value.str "x")).2.2 = some e →
        orch.status = "failed" ∧ 0 < orch.steps.length ∧
        orch.steps.length ≤ dataProcessingWorkflow.steps.length ∧
        (∀ r, orch.steps.getLast? = some r → r.status = "failed") ∧
        orch.results.map Prod.fst = dataProcessingWorkflow.steps.take (orch.steps.length - 1))) :=
  ⟨rfl, rfl, by decide,
    sequential_workflow (mkSupervisor 0) "data_processing" dataProcessingWorkflow (Value.str "x")
      rfl rfl (by decide)⟩

/-- Witness for C4: the registered `quality_assurance` workflow on a fresh
supervisor. -/
theorem parallel_workflow_witness :
    mapGet "quality_assurance" (mkSupervisor 0).workflows = some qualityAssuranceWorkflow ∧
    qualityAssuranceWorkflow.parallel = true ∧ qualityAssuranceWorkflow.steps.Nodup ∧
    (∃ orch, (orchestrateWorkflow (mkSupervisor 0) "quality_assurance" (Value.str "x")).2.1 = some orch ∧
      (orchestrateWorkflow (mkSupervisor 0) "quality_assurance" (Value.str "x")).2.2 = none ∧
      orch.steps.map StepExecution.agent = qualityAssuranceWorkflow.steps ∧
      (∀ r ∈ orch.steps, r.inputData = Value.str "x") ∧
      orch.results.map Prod.fst =
        qualityAssuranceWorkflow.steps.filter (fun n => stepOK (mkSupervisor 0) n) ∧
      orch.errors.map Prod.fst =
        qualityAssuranceWorkflow.steps.filter (fun n => !(stepOK (mkSupervisor 0) n)) ∧
      orch.status = (if (qualityAssuranceWorkflow.steps.filter
            (fun n => !(stepOK (mkSupervisor 0) n))).length = 0
        then "completed" else "completed_with_errors")) :=
  ⟨rfl, rfl, by decide,
    parallel_workflow (mkSupervisor 0) "quality_assurance" qualityAssuranceWorkflow (Value.str "x")
      rfl rfl (by decide)⟩

end DataAlchemy
